import Mathlib

/-!
Verification of the menu-tree construction and callback-dispatch subsystem of
rumps (`rumps/rumps.py`), as a shallow embedding in Lean.

The embedding translates the Python source:

* `MenuItem` (an `OrderedDict` subclass keyed by titles, holding an optional
  callback and an ordered children map) becomes `MNode`.
* The top-level menu built by the `App.menu` setter is a plain `OrderedDict`
  (source line 535), not a `MenuItem`; its values can be `MenuItem` objects or
  the separator selector stored for `None` elements.  `MContainer` packages
  the two container kinds, whose `__setitem__` semantics differ.
* `parse_menu` (source lines 512-534) becomes the mutually recursive
  `parseElem` / `parseList` / `parseKVs`.  Iterating a `Mapping` yields its
  `(key, value)` 2-tuples, each of which then takes the `len(ele) == 2`
  branch of the parser; `parseKVs` spells that shared branch out (`pairCore`).
* Python exceptions become the `PyErr` error type of an `Except` result.
* `_call_as_function_or_method` (lines 157-179) becomes
  `callAsFunctionOrMethod` over an explicit model of callable arity.
* `Timer` (lines 274-305) keeps an explicit instance-attribute dictionary so
  that the `delattr(self, 'start')` in `stop` is modelled faithfully:
  `start` is a class-level method, never an instance attribute.
* `clicked` / `register_click` (lines 122-145) become `clickedDecorator` and
  `registerClick`; `NSApp.initializeStatusBar` (lines 427-448) becomes
  `initStatusBar`.

Object identity of the separator selector (`str(id(sep))`, line 523-524) is
modelled by threading an allocation counter `n` through the parse and a
parameter `ids : Nat -> String` giving the decimal-address string of the n-th
separator object.  In-place mutation of a child aliased from its parent
(`parse_menu(submenu, menu[title])`) is modelled by writing the updated node
back under its key (`putItem`); pre-built `MenuItem` objects are taken by
value.
-/

namespace Rumps

/-- Python exceptions that the modelled code can raise. -/
inductive PyErr where
  | typeError (msg : String)
  | valueError (msg : String)
  | keyError (msg : String)
  | attributeError (msg : String)
deriving DecidableEq

/-- Dictionary keys used in the menu dictionaries: user titles and separator
id-strings are plain Python strings (`ks`); a one-element tuple used as a key
by the `len(ele) == 1` branch is a tuple key (`kt`), which can never equal a
string key. -/
inductive MKey where
  | ks (s : String)
  | kt (ss : List String)
deriving DecidableEq

/-- A `MenuItem`: display title, optional user callback (callbacks are opaque,
modelled by a numeric tag), and the ordered children dictionary created
lazily for submenus. -/
inductive MNode where
  | mk (title : String) (callback : Option Nat) (children : List (MKey × MNode))

/-- A value stored in the top-level `OrderedDict`: a `MenuItem`, the separator
selector stored for `None` elements (carrying its object identity), or some
other Python object (reachable only through direct assignment, never produced
by the parser). -/
inductive TVal where
  | node (m : MNode)
  | sepv (oid : Nat)
  | other (ty : String)

/-- One element of a menu declaration, covering the shapes `parse_menu`
distinguishes: a bare string, a pre-built `MenuItem`, `None`, a `Mapping`
(whose values are the nested sub-declarations), a 2-tuple
`(title, submenu)` whose submenu is a nested declaration, and a tuple of
strings of any other shape (`tup`), which covers the `len(ele) == 1` leaf
branch, the `len(ele) == 2` branch with a string submenu (iterated
character by character), and the arity-error branch. -/
inductive Elem where
  | str (s : String)
  | item (m : MNode)
  | sep
  | mapping (kvs : List (String × List Elem))
  | pair (t : String) (sub : List Elem)
  | tup (ss : List String)

/-- The two dictionary kinds `parse_menu` writes into: the top-level plain
`OrderedDict` (`obj_c_menu`, line 535) and a `MenuItem` acting as a submenu. -/
inductive MContainer where
  | top (entries : List (MKey × TVal))
  | sub (m : MNode)

def MNode.title : MNode → String
  | .mk t _ _ => t

def MNode.callback : MNode → Option Nat
  | .mk _ cb _ => cb

def MNode.children : MNode → List (MKey × MNode)
  | .mk _ _ ch => ch

/-- `key in dict` on an ordered association list. -/
def hasKey {α : Type} : List (MKey × α) → MKey → Bool
  | [], _ => false
  | (k', _) :: r, k => if k' = k then true else hasKey r k

/-- `dict[key]` lookup (first matching entry). -/
def getVal {α : Type} : List (MKey × α) → MKey → Option α
  | [], _ => none
  | (k', v) :: r, k => if k' = k then some v else getVal r k

/-- Replace the value stored under an existing key, keeping its position. -/
def putVal {α : Type} : List (MKey × α) → MKey → α → List (MKey × α)
  | [], _, _ => []
  | (k', v') :: r, k, v => if k' = k then (k', v) :: r else (k', v') :: putVal r k v

/-- `OrderedDict.__setitem__`: an existing key keeps its position and gets the
new value; a new key is appended at the end. -/
def odSet {α : Type} (l : List (MKey × α)) (k : MKey) (v : α) : List (MKey × α) :=
  if hasKey l k then putVal l k v else l ++ [(k, v)]

/-- `type(value)` as rendered into the `TypeError` message of
`MenuItem.__setitem__`. -/
def typeName : TVal → String
  | .node _ => "<class MenuItem>"
  | .sepv _ => "<objc.selector>"
  | .other ty => ty

/-- Item assignment.  On the top-level `OrderedDict` this is plain dictionary
assignment.  On a `MenuItem` it is `MenuItem.__setitem__` (lines 207-217):
an existing key returns immediately (silent no-op), then a non-`MenuItem`
value raises `TypeError`, otherwise the child is appended. -/
def MContainer.setItem : MContainer → MKey → TVal → Except PyErr MContainer
  | .top l, k, v => .ok (.top (odSet l k v))
  | .sub (.mk t cb ch), k, v =>
    if hasKey ch k then .ok (.sub (.mk t cb ch))
    else match v with
      | .node m => .ok (.sub (.mk t cb (ch ++ [(k, m)])))
      | v => .error (.typeError ("values must be instances of MenuItem class; given " ++ typeName v))

/-- Item lookup, as used by `menu[title]` in the `len(ele) == 2` branch. -/
def MContainer.getItem : MContainer → MKey → Option TVal
  | .top l, k => getVal l k
  | .sub (.mk _ _ ch), k => (getVal ch k).map TVal.node

/-- Write an updated child back under its key: this models the in-place
mutation of the aliased child object performed by
`parse_menu(submenu, menu[title])`. -/
def MContainer.putItem : MContainer → MKey → TVal → MContainer
  | .top l, k, v => .top (putVal l k v)
  | .sub (.mk t cb ch), k, v =>
    match v with
    | .node m => .sub (.mk t cb (putVal ch k m))
    | _ => .sub (.mk t cb ch)

/-- `MenuItem(title)`: a fresh leaf node with no callback and no submenu. -/
def freshNode (t : String) : MNode := .mk t none []

/-- Python `str` of a tuple of strings, used for the title of a leaf created
from a one-element tuple and for the arity-error message (the quoting of
Python `repr` is elided). -/
def pyStrTup (ss : List String) : String :=
  "(" ++ String.intercalate ", " ss ++ (if ss.length = 1 then ",)" else ")")

/-- The `len(ele) == 2` branch with a string submenu iterates the string
character by character; each character is itself a string and takes the
leaf branch of `MenuItem.__setitem__` on the submenu node: an existing
character key is a no-op, a new one is appended. -/
def parseChars (m : MNode) : List Char → MNode
  | [] => m
  | c :: r =>
    match m with
    | .mk t cb ch =>
      if hasKey ch (.ks c.toString) then parseChars (.mk t cb ch) r
      else parseChars (.mk t cb (ch ++ [(.ks c.toString, freshNode c.toString)])) r

/-- The `len(ele) == 2` branch shared by tuple elements and mapping items:
`menu[title] = MenuItem(title); parse_menu(submenu, menu[title])`.  The
recursive parse of the submenu is passed in as `recSub`.  The lookup
`menu[title]` can in principle return a non-`MenuItem` (a separator selector
stored under a colliding key), in which case iterating it raises
`TypeError`. -/
def pairCore (t : String) (c : MContainer)
    (recSub : MContainer → Nat → Except PyErr (MContainer × Nat)) (n : Nat) :
    Except PyErr (MContainer × Nat) :=
  match c.setItem (.ks t) (.node (freshNode t)) with
  | .error e => .error e
  | .ok c1 =>
    match c1.getItem (.ks t) with
    | some (.node m) =>
      match recSub (.sub m) n with
      | .error e => .error e
      | .ok (.sub m', n1) => .ok (c1.putItem (.ks t) (.node m'), n1)
      | .ok (.top _, _) => .error (.typeError "unreachable")
    | some v => .error (.typeError (typeName v ++ " object is not iterable"))
    | none => .error (.keyError t)

mutual

/-- One iteration of the `for ele in iterable` loop of `parse_menu`
(lines 517-533), dispatching on the shape of the element.  The separator
branch stores the selector under `str(id(sep))`, modelled by `ids n` for the
n-th allocated separator. -/
def parseElem (ids : Nat → String) : Elem → MContainer → Nat → Except PyErr (MContainer × Nat)
  | .str s, c, n =>
    match c.setItem (.ks s) (.node (freshNode s)) with
    | .error e => .error e
    | .ok c' => .ok (c', n)
  | .item m, c, n =>
    match c.setItem (.ks m.title) (.node m) with
    | .error e => .error e
    | .ok c' => .ok (c', n)
  | .sep, c, n =>
    match c.setItem (.ks (ids n)) (.sepv n) with
    | .error e => .error e
    | .ok c' => .ok (c', n + 1)
  | .mapping kvs, c, n => parseKVs ids kvs c n
  | .pair t sub, c, n => pairCore t c (fun c' n' => parseList ids sub c' n') n
  | .tup [s], c, n =>
    match c.setItem (.kt [s]) (.node (freshNode (pyStrTup [s]))) with
    | .error e => .error e
    | .ok c' => .ok (c', n)
  | .tup [a, b], c, n =>
    match c.setItem (.ks a) (.node (freshNode a)) with
    | .error e => .error e
    | .ok c1 =>
      match c1.getItem (.ks a) with
      | some (.node m) => .ok (c1.putItem (.ks a) (.node (parseChars m b.toList)), n)
      | some v => .error (.typeError (typeName v ++ " object is not iterable"))
      | none => .error (.keyError a)
  | .tup ss, _, _ =>
    .error (.valueError ("menu iterable element " ++ pyStrTup ss ++ " has length " ++
      toString ss.length ++ "; must be a single menu item or a pair consisting of a menu item and its submenu"))

/-- `parse_menu(iterable, menu)` over a list declaration. -/
def parseList (ids : Nat → String) : List Elem → MContainer → Nat → Except PyErr (MContainer × Nat)
  | [], c, n => .ok (c, n)
  | e :: rest, c, n =>
    match parseElem ids e c n with
    | .error er => .error er
    | .ok (c', n') => parseList ids rest c' n'

/-- `parse_menu` over a `Mapping`: iterating it yields its `(key, value)`
2-tuples, each of which takes the `len(ele) == 2` branch. -/
def parseKVs (ids : Nat → String) : List (String × List Elem) → MContainer → Nat → Except PyErr (MContainer × Nat)
  | [], c, n => .ok (c, n)
  | (t, sub) :: rest, c, n =>
    match pairCore t c (fun c' n' => parseList ids sub c' n') n with
    | .error e => .error e
    | .ok (c', n') => parseKVs ids rest c' n'

end

/-- The `App.menu` setter (lines 510-536): `None` leaves `_menu` as `None`,
otherwise the declaration is parsed into a fresh top-level `OrderedDict`. -/
def setMenu (ids : Nat → String) : Option (List Elem) → Except PyErr (Option (List (MKey × TVal)))
  | none => .ok none
  | some es =>
    match parseList ids es (.top []) 0 with
    | .error e => .error e
    | .ok (.top l, _) => .ok (some l)
    | .ok (.sub _, _) => .ok none

/-- A concrete separator id assignment used for evaluating the parser on
concrete declarations. -/
def ids0 : Nat → String := fun n => "<sep " ++ toString n ++ ">"

/-- A token of the depth-first iteration of a built tree: a displayed title or
a separator. -/
inductive Tok where
  | t (s : String)
  | sepT
deriving DecidableEq

mutual

/-- Depth-first tokens of a node: its title, then its children in order. -/
def nodeToks : MNode → List Tok
  | .mk t _ ch => .t t :: childToks ch

def childToks : List (MKey × MNode) → List Tok
  | [] => []
  | (_, m) :: r => nodeToks m ++ childToks r

end

def tvalToks : TVal → List Tok
  | .node m => nodeToks m
  | .sepv _ => [.sepT]
  | .other _ => []

/-- Depth-first iteration of a built top-level menu. -/
def topToks : List (MKey × TVal) → List Tok
  | [] => []
  | (_, v) :: r => tvalToks v ++ topToks r

/-- Character leaves contributed by a string submenu in declaration order. -/
def charToks (b : String) : List Tok := b.toList.map (fun c => .t c.toString)

mutual

/-- The depth-first token sequence a declaration element promises: its titles
and separators in declaration order.  This is the specification-side order
against which the built tree is compared. -/
def elemToks : Elem → List Tok
  | .str s => [.t s]
  | .item m => nodeToks m
  | .sep => [.sepT]
  | .mapping kvs => kvToks kvs
  | .pair t sub => .t t :: listToks sub
  | .tup [s] => [.t (pyStrTup [s])]
  | .tup [a, b] => .t a :: charToks b
  | .tup _ => []

def listToks : List Elem → List Tok
  | [] => []
  | e :: r => elemToks e ++ listToks r

def kvToks : List (String × List Elem) → List Tok
  | [] => []
  | (k, v) :: r => (.t k :: listToks v) ++ kvToks r

end

/-- Character keys contributed by a string submenu. -/
def charKeys (b : String) : List MKey := b.toList.map (fun c => .ks c.toString)

mutual

/-- Well-formedness pass over a declaration, mirroring the traversal (and
separator-counter threading) of the parser.  It returns the list of
dictionary keys the element inserts at the current level and the counter
after the element, or `none` when some nested level is not well formed:
a separator below the top level, a container of unsupported arity, or a
nested level with a repeated key. -/
def lvlElem (ids : Nat → String) (isTop : Bool) : Elem → Nat → Option (List MKey × Nat)
  | .str s, n => some ([.ks s], n)
  | .item m, n => some ([.ks m.title], n)
  | .sep, n => if isTop then some ([.ks (ids n)], n + 1) else none
  | .mapping kvs, n => lvlKVs ids isTop kvs n
  | .pair t sub, n =>
    match lvlList ids false sub n with
    | none => none
    | some (sks, n1) => if sks.Nodup then some ([.ks t], n1) else none
  | .tup [s], n => some ([.kt [s]], n)
  | .tup [a, b], n => if (charKeys b).Nodup then some ([.ks a], n) else none
  | .tup _, _ => none

def lvlList (ids : Nat → String) (isTop : Bool) : List Elem → Nat → Option (List MKey × Nat)
  | [], n => some ([], n)
  | e :: r, n =>
    match lvlElem ids isTop e n with
    | none => none
    | some (ks1, n1) =>
      match lvlList ids isTop r n1 with
      | none => none
      | some (ks2, n2) => some (ks1 ++ ks2, n2)

def lvlKVs (ids : Nat → String) (isTop : Bool) : List (String × List Elem) → Nat → Option (List MKey × Nat)
  | [], n => some ([], n)
  | (t, sub) :: r, n =>
    match lvlList ids false sub n with
    | none => none
    | some (sks, n1) =>
      if sks.Nodup then
        match lvlKVs ids isTop r n1 with
        | none => none
        | some (ks2, n2) => some (.ks t :: ks2, n2)
      else none

end

/-! ## Callback dispatch (`_call_as_function_or_method`, lines 157-179) -/

/-- Opaque Python values handed to callbacks (events, the running `App`). -/
abbrev PyObj := String

/-- A user callback: how many positional arguments it declares, and its body.
The body runs only when the argument count matches; it may itself raise any
exception. -/
structure PyFun where
  arity : Nat
  body : List PyObj → Except PyErr PyObj

/-- The `TypeError` message CPython raises for a call with the wrong number of
positional arguments. -/
def arityMsg (expected given : Nat) : String :=
  "takes exactly " ++ toString expected ++ " arguments (" ++ toString given ++ " given)"

/-- Calling a Python function: an argument-count mismatch raises `TypeError`
before the body runs; otherwise the body runs with the arguments. -/
def callPy (f : PyFun) (args : List PyObj) : Except PyErr PyObj :=
  if args.length = f.arity then f.body args
  else .error (.typeError (arityMsg f.arity args.length))

/-- `_call_as_function_or_method(f, event)`: try `f(event)`; on a `TypeError`
(of any origin) retry as `f(app_instance, event)`; any other exception
propagates.  `appInst` models the class-level `*app_instance` reference set
in `App.run`. -/
def callAsFunctionOrMethod (f : PyFun) (appInst event : PyObj) : Except PyErr PyObj :=
  match callPy f [event] with
  | .error (.typeError _) => callPy f [appInst, event]
  | r => r

/-! ## Timer (lines 274-305) -/

/-- The mutable state of a `Timer` object: its instance `__dict__` keys and
the validity of the underlying `NSTimer`.  `start`, `stop`, `set_callback`
and `callback_` live on the class, not in the instance dictionary. -/
structure TimerState where
  instAttrs : List String
  nstimerValid : Bool
deriving DecidableEq

/-- `Timer.__init__` sets, in order, the `*callback` attribute (via
`set_callback`), `_nsdate` and `_nstimer`, and schedules the (valid) timer. -/
def timerInit : TimerState := ⟨["*callback", "_nsdate", "_nstimer"], true⟩

/-- `Timer.stop` (lines 296-298): `self._nstimer.invalidate()` then
`delattr(self, 'start')`.  `delattr` on an instance removes only instance
attributes; when the name is absent from the instance dictionary it raises
`AttributeError`, after the timer has already been invalidated. -/
def timerStop (t : TimerState) : TimerState × Option PyErr :=
  let t1 : TimerState := ⟨t.instAttrs, false⟩
  if "start" ∈ t1.instAttrs then (⟨t1.instAttrs.erase "start", false⟩, none)
  else (t1, some (.attributeError "start"))

/-! ## `App` title and icon properties (lines 482-504) -/

/-- The `App` attributes the title/icon setters touch.  `nsappExists` records
whether `self._nsapp` has been set (which happens in `run`). -/
structure AppState where
  name : String
  title : Option String
  icon : Option String
  nsappExists : Bool
deriving DecidableEq

/-- The `App.title` setter: `None` returns immediately; otherwise the value is
stored and, when `self._nsapp` exists, propagated to the status bar (the
`AttributeError` of a missing `_nsapp` is swallowed).  The boolean result
records whether `setStatusBarTitle` was invoked. -/
def setTitleProp (a : AppState) (t : Option String) : AppState × Bool :=
  match t with
  | none => (a, false)
  | some s => ({ a with title := some s }, a.nsappExists)

/-- The `App.icon` setter, with the same shape as the title setter. -/
def setIconProp (a : AppState) (p : Option String) : AppState × Bool :=
  match p with
  | none => (a, false)
  | some s => ({ a with icon := some s }, a.nsappExists)

/-! ## Status-bar materialization (`NSApp.initializeStatusBar`, lines 427-448) -/

/-- A native menu entry: its title and its action selector (`none`,
`callback:` for items with a user callback, `terminate:` only for the Quit
item the framework appends). -/
structure NsEntry where
  title : String
  action : Option String
deriving DecidableEq

/-- The Quit item created by `initializeStatusBar`:
`NSMenuItem('Quit', 'terminate:', '')`. -/
def quitEntry : NsEntry := ⟨"Quit", some "terminate:"⟩

/-- `item()` on a stored menu value, rendered as a native entry: a `MenuItem`
yields its `NSMenuItem` (action `callback:` exactly when a callback was set);
calling the stored separator selector yields a separator item. -/
def renderTVal : TVal → NsEntry
  | .node (.mk t cb _) => ⟨t, cb.map (fun _ => "callback:")⟩
  | .sepv _ => ⟨"", none⟩
  | .other ty => ⟨ty, none⟩

/-- The main-menu population of `initializeStatusBar`: when `_menu` is not
`None` every stored value is added in order, and the Quit item is appended
unconditionally afterwards. -/
def initStatusBar (menu : Option (List (MKey × TVal))) : List NsEntry :=
  (match menu with
   | none => []
   | some l => l.map (fun p => renderTVal p.2)) ++ [quitEntry]

/-! ## Click registration (`clicked` / `register_click`, lines 122-145) -/

/-- The value `menuitem` holds while `register_click` walks the path: the
top-level `OrderedDict` (`self._menu`), a `MenuItem`, the separator selector,
or some other object. -/
inductive Cursor where
  | topC (l : List (MKey × TVal))
  | nodeC (m : MNode)
  | sepC (oid : Nat)
  | otherC (ty : String)

/-- One step `menuitem = menuitem[arg]` of the walk: a dictionary miss raises
`KeyError`; indexing a non-dictionary value raises `TypeError`. -/
def stepCursor : Cursor → String → Except PyErr Cursor
  | .topC l, arg =>
    match getVal l (.ks arg) with
    | some (.node m) => .ok (.nodeC m)
    | some (.sepv o) => .ok (.sepC o)
    | some (.other ty) => .ok (.otherC ty)
    | none => .error (.keyError arg)
  | .nodeC (.mk _ _ ch), arg =>
    match getVal ch (.ks arg) with
    | some m => .ok (.nodeC m)
    | none => .error (.keyError arg)
  | .sepC _, _ => .error (.typeError "objc.selector object is not subscriptable")
  | .otherC ty, _ => .error (.typeError (ty ++ " object is not subscriptable"))

/-- The `for arg in args` loop of `register_click`, stopping at the first
exception. -/
def walkPath : Cursor → List String → Except PyErr Cursor
  | c, [] => .ok c
  | c, a :: r =>
    match stepCursor c a with
    | .error e => .error e
    | .ok c' => walkPath c' r

def MNode.setCb : MNode → Nat → MNode
  | .mk t _ ch, cb => .mk t (some cb) ch

/-- `register_click(self)` as run for each registration during `App.run`:
a missing menu raises `ValueError('no menu created')`; a `KeyError` during
the walk is converted to `ValueError` naming the full registered path
(`' -> '.join(args)`); any other exception propagates; on success
`set_callback` is invoked on the reached object (an `AttributeError` when the
reached object is not a `MenuItem`).  The mutation of the reached node is
modelled by returning the updated node. -/
def registerClick (menu : Option (List (MKey × TVal))) (path : List String) (cb : Nat) :
    Except PyErr MNode :=
  match menu with
  | none => .error (.valueError "no menu created")
  | some l =>
    match walkPath (.topC l) path with
    | .error (.keyError _) =>
      .error (.valueError ("no path exists for " ++ String.intercalate " -> " path))
    | .error e => .error e
    | .ok (.nodeC m) => .ok (m.setCb cb)
    | .ok _ => .error (.attributeError "set_callback")

/-- The `clicked(*args)` decorator at declaration time: it only appends the
deferred registration to the class-level `*buttons` list and never touches
the (possibly not yet existing) menu tree. -/
def clickedDecorator (buttons : List (List String × Nat)) (path : List String) (cb : Nat) :
    List (List String × Nat) :=
  buttons ++ [(path, cb)]

/-! ## Dictionary lemmas -/

theorem hasKey_append {α : Type} (l₁ l₂ : List (MKey × α)) (k : MKey) :
    hasKey (l₁ ++ l₂) k = (hasKey l₁ k || hasKey l₂ k) := by
  induction l₁ with
  | nil => simp [hasKey]
  | cons p r ih =>
    obtain ⟨k', v⟩ := p
    by_cases h : k' = k <;> simp [hasKey, h, ih]

theorem getVal_skip {α : Type} (l₁ l₂ : List (MKey × α)) (k : MKey)
    (h : hasKey l₁ k = false) : getVal (l₁ ++ l₂) k = getVal l₂ k := by
  induction l₁ with
  | nil => simp
  | cons p r ih =>
    obtain ⟨k', v⟩ := p
    by_cases hk : k' = k
    · simp [hasKey, hk] at h
    · simp only [hasKey, if_neg hk] at h
      simp [getVal, hk, ih h]

theorem putVal_skip {α : Type} (l₁ l₂ : List (MKey × α)) (k : MKey) (v : α)
    (h : hasKey l₁ k = false) : putVal (l₁ ++ l₂) k v = l₁ ++ putVal l₂ k v := by
  induction l₁ with
  | nil => simp
  | cons p r ih =>
    obtain ⟨k', v'⟩ := p
    by_cases hk : k' = k
    · simp [hasKey, hk] at h
    · simp only [hasKey, if_neg hk] at h
      simp [putVal, hk, ih h]

theorem putVal_map_fst {α : Type} (l : List (MKey × α)) (k : MKey) (v : α) :
    (putVal l k v).map Prod.fst = l.map Prod.fst := by
  induction l with
  | nil => rfl
  | cons p r ih =>
    obtain ⟨k', v'⟩ := p
    by_cases hk : k' = k <;> simp [putVal, hk, ih]

theorem getVal_putVal_self {α : Type} (l : List (MKey × α)) (k : MKey) (v : α)
    (h : hasKey l k = true) : getVal (putVal l k v) k = some v := by
  induction l with
  | nil => simp [hasKey] at h
  | cons p r ih =>
    obtain ⟨k', v'⟩ := p
    by_cases hk : k' = k
    · simp [putVal, getVal, hk]
    · simp only [hasKey, if_neg hk] at h
      simp [putVal, getVal, hk, ih h]

theorem odSet_fresh {α : Type} (l : List (MKey × α)) (k : MKey) (v : α)
    (h : hasKey l k = false) : odSet l k v = l ++ [(k, v)] := by
  simp [odSet, h]

theorem odSet_existing {α : Type} (l : List (MKey × α)) (k : MKey) (v : α)
    (h : hasKey l k = true) : odSet l k v = putVal l k v := by
  simp [odSet, h]

theorem hasKey_eq_false_iff {α : Type} (l : List (MKey × α)) (k : MKey) :
    hasKey l k = false ↔ k ∉ l.map Prod.fst := by
  induction l with
  | nil => simp [hasKey]
  | cons p r ih =>
    obtain ⟨k', v⟩ := p
    by_cases hk : k' = k
    · subst hk; simp [hasKey]
    · simp only [hasKey, if_neg hk, ih, List.map_cons, List.mem_cons]
      constructor
      · intro h hmem
        rcases hmem with h1 | h2
        · exact hk h1.symm
        · exact h h2
      · intro h h2
        exact h (Or.inr h2)

/-! ## Token lemmas -/

theorem childToks_append (l₁ l₂ : List (MKey × MNode)) :
    childToks (l₁ ++ l₂) = childToks l₁ ++ childToks l₂ := by
  induction l₁ with
  | nil => simp [childToks]
  | cons p r ih => obtain ⟨k, m⟩ := p; simp [childToks, ih]

theorem topToks_append (l₁ l₂ : List (MKey × TVal)) :
    topToks (l₁ ++ l₂) = topToks l₁ ++ topToks l₂ := by
  induction l₁ with
  | nil => simp [topToks]
  | cons p r ih => obtain ⟨k, v⟩ := p; simp [topToks, ih]

theorem listToks_append (xs ys : List Elem) :
    listToks (xs ++ ys) = listToks xs ++ listToks ys := by
  induction xs with
  | nil => simp [listToks]
  | cons e r ih => simp [listToks, ih]

/-! ## Relating the mapping branch to the 2-tuple branch -/

/-- Iterating a `Mapping` yields its items as `(key, value)` 2-tuples. -/
def pairify (p : String × List Elem) : Elem := .pair p.1 p.2

theorem parseKVs_eq (ids : Nat → String) (kvs : List (String × List Elem)) :
    ∀ c n, parseKVs ids kvs c n = parseList ids (kvs.map pairify) c n := by
  induction kvs with
  | nil => intro c n; rfl
  | cons p r ih =>
    intro c n
    obtain ⟨t, sub⟩ := p
    simp only [parseKVs, List.map, pairify, parseList, parseElem]
    cases pairCore t c (fun c' n' => parseList ids sub c' n') n with
    | error e => rfl
    | ok cn => obtain ⟨c', n'⟩ := cn; exact ih c' n'

theorem lvlKVs_eq (ids : Nat → String) (isTop : Bool) (kvs : List (String × List Elem)) :
    ∀ n, lvlKVs ids isTop kvs n = lvlList ids isTop (kvs.map pairify) n := by
  induction kvs with
  | nil => intro n; rfl
  | cons p r ih =>
    intro n
    obtain ⟨t, sub⟩ := p
    simp only [lvlKVs, List.map, pairify, lvlList, lvlElem]
    cases lvlList ids false sub n with
    | none => rfl
    | some p1 =>
      obtain ⟨sks, n1⟩ := p1
      by_cases hnd : sks.Nodup
      · simp only [if_pos hnd, ih n1]
        cases lvlList ids isTop (r.map pairify) n1 with
        | none => rfl
        | some p2 => obtain ⟨ks2, n2⟩ := p2; rfl
      · simp [if_neg hnd]

theorem kvToks_eq (kvs : List (String × List Elem)) :
    kvToks kvs = listToks (kvs.map pairify) := by
  induction kvs with
  | nil => rfl
  | cons p r ih => obtain ⟨t, sub⟩ := p; simp [kvToks, listToks, pairify, elemToks, ih]

/-! ## Sequencing lemmas -/

theorem parseList_append (ids : Nat → String) (xs ys : List Elem) :
    ∀ c n, parseList ids (xs ++ ys) c n =
      match parseList ids xs c n with
      | .error e => .error e
      | .ok (c', n') => parseList ids ys c' n' := by
  induction xs with
  | nil => intro c n; rfl
  | cons e r ih =>
    intro c n
    simp only [List.cons_append, parseList]
    cases parseElem ids e c n with
    | error er => rfl
    | ok cn => obtain ⟨c', n'⟩ := cn; exact ih c' n'

theorem lvlList_append (ids : Nat → String) (isTop : Bool) (xs ys : List Elem) :
    ∀ n, lvlList ids isTop (xs ++ ys) n =
      match lvlList ids isTop xs n with
      | none => none
      | some (ks1, n1) =>
        match lvlList ids isTop ys n1 with
        | none => none
        | some (ks2, n2) => some (ks1 ++ ks2, n2) := by
  induction xs with
  | nil =>
    intro n
    simp only [List.nil_append, lvlList]
    cases lvlList ids isTop ys n with
    | none => rfl
    | some p => obtain ⟨ks2, n2⟩ := p; rfl
  | cons e r ih =>
    intro n
    simp only [List.cons_append, lvlList]
    cases he : lvlElem ids isTop e n with
    | none => rfl
    | some p1 =>
      obtain ⟨ks1, n1⟩ := p1
      dsimp only
      rw [List.append_eq, ih n1]
      cases lvlList ids isTop r n1 with
      | none => rfl
      | some p2 =>
        obtain ⟨ks2, n2⟩ := p2
        dsimp only
        cases lvlList ids isTop ys n2 with
        | none => rfl
        | some p3 => obtain ⟨ks3, n3⟩ := p3; simp [List.append_assoc]

theorem parseList_mapping (ids : Nat → String) (kvs : List (String × List Elem))
    (rest : List Elem) (c : MContainer) (n : Nat) :
    parseList ids (.mapping kvs :: rest) c n = parseList ids (kvs.map pairify ++ rest) c n := by
  rw [parseList_append]
  simp only [parseList, parseElem, parseKVs_eq]

theorem lvlList_mapping (ids : Nat → String) (isTop : Bool) (kvs : List (String × List Elem))
    (rest : List Elem) (n : Nat) :
    lvlList ids isTop (.mapping kvs :: rest) n = lvlList ids isTop (kvs.map pairify ++ rest) n := by
  rw [lvlList_append]
  simp only [lvlList, lvlElem, lvlKVs_eq]

theorem listToks_mapping (kvs : List (String × List Elem)) (rest : List Elem) :
    listToks (.mapping kvs :: rest) = listToks (kvs.map pairify ++ rest) := by
  simp [listToks, elemToks, kvToks_eq, listToks_append]

/-! ## Size lemmas for the splicing recursion -/

theorem sizeOf_list_append {α : Type} [SizeOf α] (l₁ l₂ : List α) :
    sizeOf (l₁ ++ l₂) + 1 = sizeOf l₁ + sizeOf l₂ := by
  induction l₁ with
  | nil => simp only [List.nil_append, List.nil.sizeOf_spec]; omega
  | cons a r ih => simp only [List.cons_append, List.cons.sizeOf_spec] at *; omega

theorem sizeOf_map_pairify (kvs : List (String × List Elem)) :
    sizeOf (kvs.map pairify) = sizeOf kvs := by
  induction kvs with
  | nil => rfl
  | cons p r ih =>
    obtain ⟨t, sub⟩ := p
    simp [pairify, ih]

/-! ## Character-submenu lemmas -/

theorem parseChars_spec (cs : List Char) : ∀ (t : String) (cb : Option Nat)
    (ch : List (MKey × MNode)),
    (cs.map (fun c => MKey.ks c.toString)).Nodup →
    (∀ c ∈ cs, hasKey ch (.ks c.toString) = false) →
    parseChars (.mk t cb ch) cs =
      .mk t cb (ch ++ cs.map (fun c => (MKey.ks c.toString, freshNode c.toString))) := by
  induction cs with
  | nil => intro t cb ch _ _; simp [parseChars]
  | cons c r ih =>
    intro t cb ch hnd hdis
    have hc : hasKey ch (.ks c.toString) = false := hdis c (by simp)
    rw [List.map_cons] at hnd
    have hparts := List.nodup_cons.mp hnd
    have hhead := hparts.1
    have hnd' := hparts.2
    have hrest : ∀ c' ∈ r, hasKey (ch ++ [(MKey.ks c.toString, freshNode c.toString)])
        (.ks c'.toString) = false := by
      intro c' hc'
      rw [hasKey_append]
      have h1 : hasKey ch (.ks c'.toString) = false := hdis c' (by simp [hc'])
      have h2 : MKey.ks c.toString ≠ MKey.ks c'.toString := by
        intro h
        rw [h] at hhead
        exact hhead (List.mem_map_of_mem _ hc')
      simp [h1, hasKey, h2]
    have step : parseChars (.mk t cb ch) (c :: r) =
        parseChars (.mk t cb (ch ++ [(MKey.ks c.toString, freshNode c.toString)])) r := by
      simp [parseChars, hc]
    rw [step, ih t cb _ hnd' hrest]
    simp

theorem childToks_charEntries (cs : List Char) :
    childToks (cs.map (fun c => (MKey.ks c.toString, freshNode c.toString))) =
      cs.map (fun c => Tok.t c.toString) := by
  induction cs with
  | nil => rfl
  | cons c r ih =>
    simp only [List.map_cons, childToks]
    rw [ih]
    simp [nodeToks, freshNode, childToks]

/-! ## Container step lemmas -/

theorem setItem_sub_fresh (t : String) (cb : Option Nat) (ch : List (MKey × MNode))
    (k : MKey) (m : MNode) (h : hasKey ch k = false) :
    MContainer.setItem (.sub (.mk t cb ch)) k (.node m) = .ok (.sub (.mk t cb (ch ++ [(k, m)]))) := by
  simp [MContainer.setItem, h]

theorem setItem_sub_dup (t : String) (cb : Option Nat) (ch : List (MKey × MNode))
    (k : MKey) (v : TVal) (h : hasKey ch k = true) :
    MContainer.setItem (.sub (.mk t cb ch)) k v = .ok (.sub (.mk t cb ch)) := by
  simp [MContainer.setItem, h]

theorem setItem_top_fresh (l : List (MKey × TVal)) (k : MKey) (v : TVal)
    (h : hasKey l k = false) :
    MContainer.setItem (.top l) k v = .ok (.top (l ++ [(k, v)])) := by
  simp [MContainer.setItem, odSet_fresh _ _ _ h]

theorem getItem_sub_appended (t : String) (cb : Option Nat) (ch : List (MKey × MNode))
    (k : MKey) (m : MNode) (h : hasKey ch k = false) :
    MContainer.getItem (.sub (.mk t cb (ch ++ [(k, m)]))) k = some (.node m) := by
  simp [MContainer.getItem, getVal_skip _ _ _ h, getVal]

theorem getItem_top_appended (l : List (MKey × TVal)) (k : MKey) (v : TVal)
    (h : hasKey l k = false) :
    MContainer.getItem (.top (l ++ [(k, v)])) k = some v := by
  simp [MContainer.getItem, getVal_skip _ _ _ h, getVal]

theorem putItem_sub_appended (t : String) (cb : Option Nat) (ch : List (MKey × MNode))
    (k : MKey) (m m' : MNode) (h : hasKey ch k = false) :
    MContainer.putItem (.sub (.mk t cb (ch ++ [(k, m)]))) k (.node m') =
      .sub (.mk t cb (ch ++ [(k, m')])) := by
  simp [MContainer.putItem, putVal_skip _ _ _ _ h, putVal]

theorem putItem_top_appended (l : List (MKey × TVal)) (k : MKey) (v v' : TVal)
    (h : hasKey l k = false) :
    MContainer.putItem (.top (l ++ [(k, v)])) k v' = .top (l ++ [(k, v')]) := by
  simp [MContainer.putItem, putVal_skip _ _ _ _ h, putVal]

theorem parseList_cons (ids : Nat → String) (e : Elem) (rest : List Elem)
    (c : MContainer) (n : Nat) :
    parseList ids (e :: rest) c n =
      match parseElem ids e c n with
      | .error er => .error er
      | .ok (c', n') => parseList ids rest c' n' := by
  simp [parseList]

/-! ## The main order theorem for submenu levels -/

/-- Parsing a well-formed declaration fragment into a `MenuItem` submenu:
when every key the fragment inserts at this level is new and the keys are
pairwise distinct, every insertion is fresh, so the children list grows by
appending one entry per level key, in declaration order, and the depth-first
tokens of the new children are exactly the declaration's token sequence. -/
theorem parseSub (ids : Nat → String) (es : List Elem) :
    ∀ (t : String) (cb : Option Nat) (ch : List (MKey × MNode)) (n : Nat)
      (ks : List MKey) (n' : Nat),
      lvlList ids false es n = some (ks, n') →
      ks.Nodup →
      (∀ k ∈ ks, hasKey ch k = false) →
      ∃ newCh,
        parseList ids es (.sub (.mk t cb ch)) n = .ok (.sub (.mk t cb (ch ++ newCh)), n') ∧
        newCh.map Prod.fst = ks ∧
        childToks newCh = listToks es := by
  cases es with
  | nil =>
    intro t cb ch n ks n' hl hnd hdis
    simp only [lvlList, Option.some.injEq, Prod.mk.injEq] at hl
    obtain ⟨hks, hn⟩ := hl
    subst hks; subst hn
    exact ⟨[], by simp [parseList], rfl, rfl⟩
  | cons e rest =>
    cases e with
    | str s =>
      intro t cb ch n ks n' hl hnd hdis
      cases hr : lvlList ids false rest n with
      | none => simp [lvlList, lvlElem, hr] at hl
      | some p =>
        obtain ⟨ks2, n2⟩ := p
        simp only [lvlList, lvlElem, hr, Option.some.injEq, Prod.mk.injEq,
          List.singleton_append] at hl
        obtain ⟨hks, hn⟩ := hl
        subst hks; subst hn
        have hck : hasKey ch (.ks s) = false := hdis _ (List.mem_cons_self _ _)
        have hxni := (List.nodup_cons.mp hnd).1
        have hnd2 := (List.nodup_cons.mp hnd).2
        have hdis2 : ∀ k ∈ ks2, hasKey (ch ++ [(MKey.ks s, freshNode s)]) k = false := by
          intro k hk
          rw [hasKey_append]
          have h1 := hdis k (List.mem_cons_of_mem _ hk)
          have h2 : MKey.ks s ≠ k := fun h => hxni (h ▸ hk)
          simp [h1, hasKey, h2]
        obtain ⟨newCh1, hp, hkeys, htoks⟩ :=
          parseSub ids rest t cb (ch ++ [(MKey.ks s, freshNode s)]) n ks2 n2 hr hnd2 hdis2
        have hstep : parseList ids (.str s :: rest) (.sub (.mk t cb ch)) n =
            parseList ids rest (.sub (.mk t cb (ch ++ [(MKey.ks s, freshNode s)]))) n := by
          rw [parseList_cons]
          simp only [parseElem, setItem_sub_fresh t cb ch (.ks s) (freshNode s) hck]
        refine ⟨(MKey.ks s, freshNode s) :: newCh1, ?_, ?_, ?_⟩
        · rw [hstep, hp]
          simp [List.append_assoc]
        · simp [hkeys]
        · simp [childToks, nodeToks, freshNode, htoks, listToks, elemToks]
    | item m =>
      intro t cb ch n ks n' hl hnd hdis
      cases hr : lvlList ids false rest n with
      | none => simp [lvlList, lvlElem, hr] at hl
      | some p =>
        obtain ⟨ks2, n2⟩ := p
        simp only [lvlList, lvlElem, hr, Option.some.injEq, Prod.mk.injEq,
          List.singleton_append] at hl
        obtain ⟨hks, hn⟩ := hl
        subst hks; subst hn
        have hck : hasKey ch (.ks m.title) = false := hdis _ (List.mem_cons_self _ _)
        have hxni := (List.nodup_cons.mp hnd).1
        have hnd2 := (List.nodup_cons.mp hnd).2
        have hdis2 : ∀ k ∈ ks2, hasKey (ch ++ [(MKey.ks m.title, m)]) k = false := by
          intro k hk
          rw [hasKey_append]
          have h1 := hdis k (List.mem_cons_of_mem _ hk)
          have h2 : MKey.ks m.title ≠ k := fun h => hxni (h ▸ hk)
          simp [h1, hasKey, h2]
        obtain ⟨newCh1, hp, hkeys, htoks⟩ :=
          parseSub ids rest t cb (ch ++ [(MKey.ks m.title, m)]) n ks2 n2 hr hnd2 hdis2
        have hstep : parseList ids (.item m :: rest) (.sub (.mk t cb ch)) n =
            parseList ids rest (.sub (.mk t cb (ch ++ [(MKey.ks m.title, m)]))) n := by
          rw [parseList_cons]
          simp only [parseElem, setItem_sub_fresh t cb ch (.ks m.title) m hck]
        refine ⟨(MKey.ks m.title, m) :: newCh1, ?_, ?_, ?_⟩
        · rw [hstep, hp]
          simp [List.append_assoc]
        · simp [hkeys]
        · simp [childToks, htoks, listToks, elemToks]
    | sep =>
      intro t cb ch n ks n' hl hnd hdis
      simp [lvlList, lvlElem] at hl
    | mapping kvs =>
      intro t cb ch n ks n' hl hnd hdis
      rw [lvlList_mapping] at hl
      obtain ⟨newCh, hp, hkeys, htoks⟩ :=
        parseSub ids (kvs.map pairify ++ rest) t cb ch n ks n' hl hnd hdis
      refine ⟨newCh, ?_, hkeys, ?_⟩
      · rw [parseList_mapping]; exact hp
      · rw [listToks_mapping]; exact htoks
    | pair t2 sub =>
      intro t cb ch n ks n' hl hnd hdis
      cases hs : lvlList ids false sub n with
      | none => simp [lvlList, lvlElem, hs] at hl
      | some ps =>
        obtain ⟨sks, n1⟩ := ps
        by_cases hsnd : sks.Nodup
        · cases hr : lvlList ids false rest n1 with
          | none => simp [lvlList, lvlElem, hs, hr, hsnd] at hl
          | some pr =>
            obtain ⟨ks2, n2⟩ := pr
            simp only [lvlList, lvlElem, hs, hr, if_pos hsnd, Option.some.injEq, Prod.mk.injEq,
              List.singleton_append] at hl
            obtain ⟨hks, hn⟩ := hl
            subst hks; subst hn
            have hck : hasKey ch (.ks t2) = false := hdis _ (List.mem_cons_self _ _)
            have hxni := (List.nodup_cons.mp hnd).1
            have hnd2 := (List.nodup_cons.mp hnd).2
            obtain ⟨newSub, hpSub, hkeysSub, htoksSub⟩ :=
              parseSub ids sub t2 none [] n sks n1 hs hsnd (fun k _ => rfl)
            have hstep : parseList ids (.pair t2 sub :: rest) (.sub (.mk t cb ch)) n =
                parseList ids rest (.sub (.mk t cb (ch ++ [(MKey.ks t2, MNode.mk t2 none newSub)]))) n1 := by
              rw [parseList_cons]
              simp only [parseElem, pairCore,
                setItem_sub_fresh t cb ch (.ks t2) (freshNode t2) hck,
                getItem_sub_appended t cb ch (.ks t2) (freshNode t2) hck]
              rw [show (freshNode t2 : MNode) = .mk t2 none [] from rfl, hpSub]
              simp only [List.nil_append,
                putItem_sub_appended t cb ch (.ks t2) (.mk t2 none []) (.mk t2 none newSub) hck]
            have hdis2 : ∀ k ∈ ks2,
                hasKey (ch ++ [(MKey.ks t2, MNode.mk t2 none newSub)]) k = false := by
              intro k hk
              rw [hasKey_append]
              have h1 := hdis k (List.mem_cons_of_mem _ hk)
              have h2 : MKey.ks t2 ≠ k := fun h => hxni (h ▸ hk)
              simp [h1, hasKey, h2]
            obtain ⟨newR, hpR, hkeysR, htoksR⟩ :=
              parseSub ids rest t cb (ch ++ [(MKey.ks t2, MNode.mk t2 none newSub)]) n1 ks2 n2
                hr hnd2 hdis2
            refine ⟨(MKey.ks t2, MNode.mk t2 none newSub) :: newR, ?_, ?_, ?_⟩
            · rw [hstep, hpR]
              simp [List.append_assoc]
            · simp [hkeysR]
            · simp [childToks, nodeToks, htoksR, htoksSub, listToks, elemToks]
        · simp [lvlList, lvlElem, hs, hsnd] at hl
    | tup ss =>
      intro t cb ch n ks n' hl hnd hdis
      rcases ss with _ | ⟨a, _ | ⟨b, _ | ⟨c3, ss'⟩⟩⟩
      · simp [lvlList, lvlElem] at hl
      · cases hr : lvlList ids false rest n with
        | none => simp [lvlList, lvlElem, hr] at hl
        | some p =>
          obtain ⟨ks2, n2⟩ := p
          simp only [lvlList, lvlElem, hr, Option.some.injEq, Prod.mk.injEq,
            List.singleton_append] at hl
          obtain ⟨hks, hn⟩ := hl
          subst hks; subst hn
          have hck : hasKey ch (.kt [a]) = false := hdis _ (List.mem_cons_self _ _)
          have hxni := (List.nodup_cons.mp hnd).1
          have hnd2 := (List.nodup_cons.mp hnd).2
          have hdis2 : ∀ k ∈ ks2,
              hasKey (ch ++ [(MKey.kt [a], freshNode (pyStrTup [a]))]) k = false := by
            intro k hk
            rw [hasKey_append]
            have h1 := hdis k (List.mem_cons_of_mem _ hk)
            have h2 : MKey.kt [a] ≠ k := fun h => hxni (h ▸ hk)
            simp [h1, hasKey, h2]
          obtain ⟨newCh1, hp, hkeys, htoks⟩ :=
            parseSub ids rest t cb (ch ++ [(MKey.kt [a], freshNode (pyStrTup [a]))]) n ks2 n2
              hr hnd2 hdis2
          have hstep : parseList ids (.tup [a] :: rest) (.sub (.mk t cb ch)) n =
              parseList ids rest (.sub (.mk t cb (ch ++ [(MKey.kt [a], freshNode (pyStrTup [a]))]))) n := by
            rw [parseList_cons]
            simp only [parseElem, setItem_sub_fresh t cb ch (.kt [a]) (freshNode (pyStrTup [a])) hck]
          refine ⟨(MKey.kt [a], freshNode (pyStrTup [a])) :: newCh1, ?_, ?_, ?_⟩
          · rw [hstep, hp]
            simp [List.append_assoc]
          · simp [hkeys]
          · simp [childToks, nodeToks, freshNode, htoks, listToks, elemToks]
      · by_cases hcb : (charKeys b).Nodup
        · cases hr : lvlList ids false rest n with
          | none => simp [lvlList, lvlElem, hr, hcb] at hl
          | some p =>
            obtain ⟨ks2, n2⟩ := p
            simp only [lvlList, lvlElem, hr, if_pos hcb, Option.some.injEq, Prod.mk.injEq,
              List.singleton_append] at hl
            obtain ⟨hks, hn⟩ := hl
            subst hks; subst hn
            have hck : hasKey ch (.ks a) = false := hdis _ (List.mem_cons_self _ _)
            have hxni := (List.nodup_cons.mp hnd).1
            have hnd2 := (List.nodup_cons.mp hnd).2
            have hpc : parseChars (.mk a none []) b.toList =
                .mk a none ([] ++ b.toList.map (fun c => (MKey.ks c.toString, freshNode c.toString))) :=
              parseChars_spec b.toList a none [] (by simpa [charKeys] using hcb) (fun c _ => rfl)
            have hstep : parseList ids (.tup [a, b] :: rest) (.sub (.mk t cb ch)) n =
                parseList ids rest (.sub (.mk t cb (ch ++
                  [(MKey.ks a, MNode.mk a none
                    (b.toList.map (fun c => (MKey.ks c.toString, freshNode c.toString))))]))) n := by
              rw [parseList_cons]
              simp only [parseElem, setItem_sub_fresh t cb ch (.ks a) (freshNode a) hck,
                getItem_sub_appended t cb ch (.ks a) (freshNode a) hck]
              rw [show (freshNode a : MNode) = .mk a none [] from rfl, hpc]
              simp only [List.nil_append,
                putItem_sub_appended t cb ch (.ks a) (.mk a none [])
                  (.mk a none (b.toList.map (fun c => (MKey.ks c.toString, freshNode c.toString)))) hck]
            have hdis2 : ∀ k ∈ ks2, hasKey (ch ++
                [(MKey.ks a, MNode.mk a none
                  (b.toList.map (fun c => (MKey.ks c.toString, freshNode c.toString))))]) k = false := by
              intro k hk
              rw [hasKey_append]
              have h1 := hdis k (List.mem_cons_of_mem _ hk)
              have h2 : MKey.ks a ≠ k := fun h => hxni (h ▸ hk)
              simp [h1, hasKey, h2]
            obtain ⟨newCh1, hp, hkeys, htoks⟩ :=
              parseSub ids rest t cb (ch ++
                [(MKey.ks a, MNode.mk a none
                  (b.toList.map (fun c => (MKey.ks c.toString, freshNode c.toString))))]) n ks2 n2
                hr hnd2 hdis2
            refine ⟨(MKey.ks a, MNode.mk a none
                (b.toList.map (fun c => (MKey.ks c.toString, freshNode c.toString)))) :: newCh1,
              ?_, ?_, ?_⟩
            · rw [hstep, hp]
              simp [List.append_assoc]
            · simp [hkeys]
            · simp [childToks, nodeToks, childToks_charEntries, htoks, listToks, elemToks, charToks]
        · simp [lvlList, lvlElem, hcb] at hl
      · simp [lvlList, lvlElem] at hl
termination_by sizeOf es
decreasing_by
  all_goals simp_wf
  all_goals try omega
  all_goals
    (have h1 := sizeOf_list_append (kvs.map pairify) tail
     have h2 := sizeOf_map_pairify kvs
     omega)

/-! ## The main order theorem for the top level -/

/-- Parsing a well-formed declaration into the top-level `OrderedDict`: when
every key the declaration inserts at the top level is new and the keys are
pairwise distinct, every insertion is an append, so the entries grow in
declaration order and the depth-first tokens of the new entries are exactly
the declaration's token sequence.  Submenus are filled according to
`parseSub`. -/
theorem parseTop (ids : Nat → String) (es : List Elem) :
    ∀ (l : List (MKey × TVal)) (n : Nat) (ks : List MKey) (n' : Nat),
      lvlList ids true es n = some (ks, n') →
      ks.Nodup →
      (∀ k ∈ ks, hasKey l k = false) →
      ∃ newE,
        parseList ids es (.top l) n = .ok (.top (l ++ newE), n') ∧
        newE.map Prod.fst = ks ∧
        topToks newE = listToks es := by
  cases es with
  | nil =>
    intro l n ks n' hl hnd hdis
    simp only [lvlList, Option.some.injEq, Prod.mk.injEq] at hl
    obtain ⟨hks, hn⟩ := hl
    subst hks; subst hn
    exact ⟨[], by simp [parseList], rfl, rfl⟩
  | cons e rest =>
    cases e with
    | str s =>
      intro l n ks n' hl hnd hdis
      cases hr : lvlList ids true rest n with
      | none => simp [lvlList, lvlElem, hr] at hl
      | some p =>
        obtain ⟨ks2, n2⟩ := p
        simp only [lvlList, lvlElem, hr, Option.some.injEq, Prod.mk.injEq,
          List.singleton_append] at hl
        obtain ⟨hks, hn⟩ := hl
        subst hks; subst hn
        have hck : hasKey l (.ks s) = false := hdis _ (List.mem_cons_self _ _)
        have hxni := (List.nodup_cons.mp hnd).1
        have hnd2 := (List.nodup_cons.mp hnd).2
        have hdis2 : ∀ k ∈ ks2, hasKey (l ++ [(MKey.ks s, TVal.node (freshNode s))]) k = false := by
          intro k hk
          rw [hasKey_append]
          have h1 := hdis k (List.mem_cons_of_mem _ hk)
          have h2 : MKey.ks s ≠ k := fun h => hxni (h ▸ hk)
          simp [h1, hasKey, h2]
        obtain ⟨newE1, hp, hkeys, htoks⟩ :=
          parseTop ids rest (l ++ [(MKey.ks s, TVal.node (freshNode s))]) n ks2 n2 hr hnd2 hdis2
        have hstep : parseList ids (.str s :: rest) (.top l) n =
            parseList ids rest (.top (l ++ [(MKey.ks s, TVal.node (freshNode s))])) n := by
          rw [parseList_cons]
          simp only [parseElem, setItem_top_fresh l (.ks s) (.node (freshNode s)) hck]
        refine ⟨(MKey.ks s, TVal.node (freshNode s)) :: newE1, ?_, ?_, ?_⟩
        · rw [hstep, hp]
          simp [List.append_assoc]
        · simp [hkeys]
        · simp [topToks, tvalToks, nodeToks, freshNode, childToks, htoks, listToks, elemToks]
    | item m =>
      intro l n ks n' hl hnd hdis
      cases hr : lvlList ids true rest n with
      | none => simp [lvlList, lvlElem, hr] at hl
      | some p =>
        obtain ⟨ks2, n2⟩ := p
        simp only [lvlList, lvlElem, hr, Option.some.injEq, Prod.mk.injEq,
          List.singleton_append] at hl
        obtain ⟨hks, hn⟩ := hl
        subst hks; subst hn
        have hck : hasKey l (.ks m.title) = false := hdis _ (List.mem_cons_self _ _)
        have hxni := (List.nodup_cons.mp hnd).1
        have hnd2 := (List.nodup_cons.mp hnd).2
        have hdis2 : ∀ k ∈ ks2, hasKey (l ++ [(MKey.ks m.title, TVal.node m)]) k = false := by
          intro k hk
          rw [hasKey_append]
          have h1 := hdis k (List.mem_cons_of_mem _ hk)
          have h2 : MKey.ks m.title ≠ k := fun h => hxni (h ▸ hk)
          simp [h1, hasKey, h2]
        obtain ⟨newE1, hp, hkeys, htoks⟩ :=
          parseTop ids rest (l ++ [(MKey.ks m.title, TVal.node m)]) n ks2 n2 hr hnd2 hdis2
        have hstep : parseList ids (.item m :: rest) (.top l) n =
            parseList ids rest (.top (l ++ [(MKey.ks m.title, TVal.node m)])) n := by
          rw [parseList_cons]
          simp only [parseElem, setItem_top_fresh l (.ks m.title) (.node m) hck]
        refine ⟨(MKey.ks m.title, TVal.node m) :: newE1, ?_, ?_, ?_⟩
        · rw [hstep, hp]
          simp [List.append_assoc]
        · simp [hkeys]
        · simp [topToks, tvalToks, htoks, listToks, elemToks]
    | sep =>
      intro l n ks n' hl hnd hdis
      cases hr : lvlList ids true rest (n + 1) with
      | none => simp [lvlList, lvlElem, hr] at hl
      | some p =>
        obtain ⟨ks2, n2⟩ := p
        simp only [lvlList, lvlElem, hr, if_pos, Option.some.injEq, Prod.mk.injEq,
          List.singleton_append, if_true] at hl
        obtain ⟨hks, hn⟩ := hl
        subst hks; subst hn
        have hck : hasKey l (.ks (ids n)) = false := hdis _ (List.mem_cons_self _ _)
        have hxni := (List.nodup_cons.mp hnd).1
        have hnd2 := (List.nodup_cons.mp hnd).2
        have hdis2 : ∀ k ∈ ks2, hasKey (l ++ [(MKey.ks (ids n), TVal.sepv n)]) k = false := by
          intro k hk
          rw [hasKey_append]
          have h1 := hdis k (List.mem_cons_of_mem _ hk)
          have h2 : MKey.ks (ids n) ≠ k := fun h => hxni (h ▸ hk)
          simp [h1, hasKey, h2]
        obtain ⟨newE1, hp, hkeys, htoks⟩ :=
          parseTop ids rest (l ++ [(MKey.ks (ids n), TVal.sepv n)]) (n + 1) ks2 n2 hr hnd2 hdis2
        have hstep : parseList ids (.sep :: rest) (.top l) n =
            parseList ids rest (.top (l ++ [(MKey.ks (ids n), TVal.sepv n)])) (n + 1) := by
          rw [parseList_cons]
          simp only [parseElem, setItem_top_fresh l (.ks (ids n)) (.sepv n) hck]
        refine ⟨(MKey.ks (ids n), TVal.sepv n) :: newE1, ?_, ?_, ?_⟩
        · rw [hstep, hp]
          simp [List.append_assoc]
        · simp [hkeys]
        · simp [topToks, tvalToks, htoks, listToks, elemToks]
    | mapping kvs =>
      intro l n ks n' hl hnd hdis
      rw [lvlList_mapping] at hl
      obtain ⟨newE, hp, hkeys, htoks⟩ :=
        parseTop ids (kvs.map pairify ++ rest) l n ks n' hl hnd hdis
      refine ⟨newE, ?_, hkeys, ?_⟩
      · rw [parseList_mapping]; exact hp
      · rw [listToks_mapping]; exact htoks
    | pair t2 sub =>
      intro l n ks n' hl hnd hdis
      cases hs : lvlList ids false sub n with
      | none => simp [lvlList, lvlElem, hs] at hl
      | some ps =>
        obtain ⟨sks, n1⟩ := ps
        by_cases hsnd : sks.Nodup
        · cases hr : lvlList ids true rest n1 with
          | none => simp [lvlList, lvlElem, hs, hr, hsnd] at hl
          | some pr =>
            obtain ⟨ks2, n2⟩ := pr
            simp only [lvlList, lvlElem, hs, hr, if_pos hsnd, Option.some.injEq, Prod.mk.injEq,
              List.singleton_append] at hl
            obtain ⟨hks, hn⟩ := hl
            subst hks; subst hn
            have hck : hasKey l (.ks t2) = false := hdis _ (List.mem_cons_self _ _)
            have hxni := (List.nodup_cons.mp hnd).1
            have hnd2 := (List.nodup_cons.mp hnd).2
            obtain ⟨newSub, hpSub, hkeysSub, htoksSub⟩ :=
              parseSub ids sub t2 none [] n sks n1 hs hsnd (fun k _ => rfl)
            have hstep : parseList ids (.pair t2 sub :: rest) (.top l) n =
                parseList ids rest (.top (l ++ [(MKey.ks t2, TVal.node (MNode.mk t2 none newSub))])) n1 := by
              rw [parseList_cons]
              simp only [parseElem, pairCore,
                setItem_top_fresh l (.ks t2) (.node (freshNode t2)) hck,
                getItem_top_appended l (.ks t2) (.node (freshNode t2)) hck]
              rw [show (freshNode t2 : MNode) = .mk t2 none [] from rfl, hpSub]
              simp only [List.nil_append,
                putItem_top_appended l (.ks t2) (.node (.mk t2 none []))
                  (.node (.mk t2 none newSub)) hck]
            have hdis2 : ∀ k ∈ ks2,
                hasKey (l ++ [(MKey.ks t2, TVal.node (MNode.mk t2 none newSub))]) k = false := by
              intro k hk
              rw [hasKey_append]
              have h1 := hdis k (List.mem_cons_of_mem _ hk)
              have h2 : MKey.ks t2 ≠ k := fun h => hxni (h ▸ hk)
              simp [h1, hasKey, h2]
            obtain ⟨newE1, hp, hkeys, htoks⟩ :=
              parseTop ids rest (l ++ [(MKey.ks t2, TVal.node (MNode.mk t2 none newSub))]) n1 ks2 n2
                hr hnd2 hdis2
            refine ⟨(MKey.ks t2, TVal.node (MNode.mk t2 none newSub)) :: newE1, ?_, ?_, ?_⟩
            · rw [hstep, hp]
              simp [List.append_assoc]
            · simp [hkeys]
            · simp [topToks, tvalToks, nodeToks, htoks, htoksSub, listToks, elemToks]
        · simp [lvlList, lvlElem, hs, hsnd] at hl
    | tup ss =>
      intro l n ks n' hl hnd hdis
      rcases ss with _ | ⟨a, _ | ⟨b, _ | ⟨c3, ss'⟩⟩⟩
      · simp [lvlList, lvlElem] at hl
      · cases hr : lvlList ids true rest n with
        | none => simp [lvlList, lvlElem, hr] at hl
        | some p =>
          obtain ⟨ks2, n2⟩ := p
          simp only [lvlList, lvlElem, hr, Option.some.injEq, Prod.mk.injEq,
            List.singleton_append] at hl
          obtain ⟨hks, hn⟩ := hl
          subst hks; subst hn
          have hck : hasKey l (.kt [a]) = false := hdis _ (List.mem_cons_self _ _)
          have hxni := (List.nodup_cons.mp hnd).1
          have hnd2 := (List.nodup_cons.mp hnd).2
          have hdis2 : ∀ k ∈ ks2,
              hasKey (l ++ [(MKey.kt [a], TVal.node (freshNode (pyStrTup [a])))]) k = false := by
            intro k hk
            rw [hasKey_append]
            have h1 := hdis k (List.mem_cons_of_mem _ hk)
            have h2 : MKey.kt [a] ≠ k := fun h => hxni (h ▸ hk)
            simp [h1, hasKey, h2]
          obtain ⟨newE1, hp, hkeys, htoks⟩ :=
            parseTop ids rest (l ++ [(MKey.kt [a], TVal.node (freshNode (pyStrTup [a])))]) n ks2 n2
              hr hnd2 hdis2
          have hstep : parseList ids (.tup [a] :: rest) (.top l) n =
              parseList ids rest (.top (l ++ [(MKey.kt [a], TVal.node (freshNode (pyStrTup [a])))])) n := by
            rw [parseList_cons]
            simp only [parseElem, setItem_top_fresh l (.kt [a]) (.node (freshNode (pyStrTup [a]))) hck]
          refine ⟨(MKey.kt [a], TVal.node (freshNode (pyStrTup [a]))) :: newE1, ?_, ?_, ?_⟩
          · rw [hstep, hp]
            simp [List.append_assoc]
          · simp [hkeys]
          · simp [topToks, tvalToks, nodeToks, freshNode, childToks, htoks, listToks, elemToks]
      · by_cases hcb : (charKeys b).Nodup
        · cases hr : lvlList ids true rest n with
          | none => simp [lvlList, lvlElem, hr, hcb] at hl
          | some p =>
            obtain ⟨ks2, n2⟩ := p
            simp only [lvlList, lvlElem, hr, if_pos hcb, Option.some.injEq, Prod.mk.injEq,
              List.singleton_append] at hl
            obtain ⟨hks, hn⟩ := hl
            subst hks; subst hn
            have hck : hasKey l (.ks a) = false := hdis _ (List.mem_cons_self _ _)
            have hxni := (List.nodup_cons.mp hnd).1
            have hnd2 := (List.nodup_cons.mp hnd).2
            have hpc : parseChars (.mk a none []) b.toList =
                .mk a none ([] ++ b.toList.map (fun c => (MKey.ks c.toString, freshNode c.toString))) :=
              parseChars_spec b.toList a none [] (by simpa [charKeys] using hcb) (fun c _ => rfl)
            have hstep : parseList ids (.tup [a, b] :: rest) (.top l) n =
                parseList ids rest (.top (l ++
                  [(MKey.ks a, TVal.node (MNode.mk a none
                    (b.toList.map (fun c => (MKey.ks c.toString, freshNode c.toString)))))])) n := by
              rw [parseList_cons]
              simp only [parseElem, setItem_top_fresh l (.ks a) (.node (freshNode a)) hck,
                getItem_top_appended l (.ks a) (.node (freshNode a)) hck]
              rw [show (freshNode a : MNode) = .mk a none [] from rfl, hpc]
              simp only [List.nil_append,
                putItem_top_appended l (.ks a) (.node (.mk a none []))
                  (.node (.mk a none (b.toList.map (fun c => (MKey.ks c.toString, freshNode c.toString))))) hck]
            have hdis2 : ∀ k ∈ ks2, hasKey (l ++
                [(MKey.ks a, TVal.node (MNode.mk a none
                  (b.toList.map (fun c => (MKey.ks c.toString, freshNode c.toString)))))]) k = false := by
              intro k hk
              rw [hasKey_append]
              have h1 := hdis k (List.mem_cons_of_mem _ hk)
              have h2 : MKey.ks a ≠ k := fun h => hxni (h ▸ hk)
              simp [h1, hasKey, h2]
            obtain ⟨newE1, hp, hkeys, htoks⟩ :=
              parseTop ids rest (l ++
                [(MKey.ks a, TVal.node (MNode.mk a none
                  (b.toList.map (fun c => (MKey.ks c.toString, freshNode c.toString)))))]) n ks2 n2
                hr hnd2 hdis2
            refine ⟨(MKey.ks a, TVal.node (MNode.mk a none
                (b.toList.map (fun c => (MKey.ks c.toString, freshNode c.toString))))) :: newE1,
              ?_, ?_, ?_⟩
            · rw [hstep, hp]
              simp [List.append_assoc]
            · simp [hkeys]
            · simp [topToks, tvalToks, nodeToks, childToks_charEntries, htoks, listToks, elemToks,
                charToks]
        · simp [lvlList, lvlElem, hcb] at hl
      · simp [lvlList, lvlElem] at hl
termination_by sizeOf es
decreasing_by
  all_goals simp_wf
  all_goals
    (have h1 := sizeOf_list_append (kvs.map pairify) tail
     have h2 := sizeOf_map_pairify kvs
     omega)

/-! ## Derived definitions used by concrete evaluations -/

/-- Depth-first iteration tokens of the tree built from a declaration, under
the concrete separator id assignment `ids0`. -/
def menuToks (d : List Elem) : List Tok :=
  match setMenu ids0 (some d) with
  | .ok (some l) => topToks l
  | _ => []

/-- An injective concrete id assignment: the n-th separator gets a string of
n characters, modelling pairwise-distinct object addresses. -/
def sepIds : Nat → String := fun n => String.mk (List.replicate n 'x')

theorem sepIds_inj : ∀ a b : Nat, sepIds a = sepIds b → a = b := by
  intro a b h
  have hlen : (sepIds a).length = (sepIds b).length := by rw [h]
  simpa [sepIds, String.length] using hlen

/-! ## Claim C1 -/

/-- Claim C1 as stated is false: at the top level, which is a plain
`OrderedDict` and not a `MenuItem`, a second insertion under an existing
title replaces the stored node, so the tree after both insertions differs
from the tree after only the first: declaring `Files -> Open` and then
`Files -> Close` leaves `Files` with the child `Close`, not `Open`. -/
theorem claim_c1_counterexample :
    menuToks [.pair "Files" [.str "Open"], .pair "Files" [.str "Close"]] =
      [.t "Files", .t "Close"]
  ∧ menuToks [.pair "Files" [.str "Open"]] = [.t "Files", .t "Open"]
  ∧ ([Tok.t "Files", Tok.t "Close"] : List Tok) ≠ [Tok.t "Files", Tok.t "Open"] :=
  ⟨by decide, by decide, by decide⟩

/-- Claim C1 (amended): inserting under an existing title is a silent no-op
only at submenu levels (`MenuItem.__setitem__` returns as soon as the key is
present — first insertion wins); at the top level, a plain `OrderedDict`,
the second insertion keeps the key's original position but replaces the
stored value — second insertion wins. -/
theorem claim_c1 :
    (∀ (t : String) (cb : Option Nat) (ch : List (MKey × MNode)) (k : MKey) (v : TVal),
        hasKey ch k = true →
        MContainer.setItem (.sub (.mk t cb ch)) k v = .ok (.sub (.mk t cb ch)))
  ∧ (∀ (l : List (MKey × TVal)) (k : MKey) (v : TVal), hasKey l k = true →
        (odSet l k v).map Prod.fst = l.map Prod.fst ∧ getVal (odSet l k v) k = some v) := by
  refine ⟨fun t cb ch k v h => setItem_sub_dup t cb ch k v h, fun l k v h => ⟨?_, ?_⟩⟩
  · rw [odSet_existing _ _ _ h, putVal_map_fst]
  · rw [odSet_existing _ _ _ h, getVal_putVal_self _ _ _ h]

theorem claim_c1_witness :
    MContainer.setItem (.sub (.mk "P" none [(.ks "A", freshNode "A")])) (.ks "A")
        (.node (freshNode "B")) = .ok (.sub (.mk "P" none [(.ks "A", freshNode "A")]))
  ∧ (odSet [(MKey.ks "A", TVal.node (freshNode "A"))] (.ks "A")
        (.node (freshNode "B"))).map Prod.fst = [MKey.ks "A"]
  ∧ getVal (odSet [(MKey.ks "A", TVal.node (freshNode "A"))] (.ks "A")
        (.node (freshNode "B"))) (.ks "A") = some (.node (freshNode "B")) := by
  refine ⟨claim_c1.1 "P" none _ (.ks "A") _ (by decide), ?_, ?_⟩
  · exact (claim_c1.2 [(MKey.ks "A", TVal.node (freshNode "A"))] (.ks "A")
      (.node (freshNode "B")) (by decide)).1.trans (by rfl)
  · exact (claim_c1.2 [(MKey.ks "A", TVal.node (freshNode "A"))] (.ks "A")
      (.node (freshNode "B")) (by decide)).2

/-! ## Claim C2 -/

/-- A one-argument callback whose body itself raises a `TypeError`. -/
def bodyTypeErr : PyFun := ⟨1, fun _ => .error (.typeError "unsupported operand type")⟩

/-- Claim C2 refuted: a `TypeError` raised inside the body of a one-argument
callback does not propagate unmodified.  The bare `except TypeError` of
`_call_as_function_or_method` cannot distinguish it from an arity mismatch
and retries with two arguments, which masks the original error with a fresh
arity `TypeError`. -/
theorem claim_c2_counterexample :
    callAsFunctionOrMethod bodyTypeErr "app" "event" = .error (.typeError (arityMsg 1 2))
  ∧ (Except.error (PyErr.typeError (arityMsg 1 2)) : Except PyErr PyObj) ≠
      .error (.typeError "unsupported operand type") := by
  refine ⟨rfl, ?_⟩
  intro h
  simp only [Except.error.injEq, PyErr.typeError.injEq] at h
  exact absurd h (by decide)

/-- Claim C2 (amended): the resolver retries as `f(app, event)` whenever the
first attempt raises any `TypeError` — from an arity mismatch (a two-argument
method works) or from inside the body of a one-argument callback (whose
original error is masked by the arity error of the retry) — while failures
of any other class propagate unmodified, as do successful results. -/
theorem claim_c2 (f : PyFun) (appInst event : PyObj) :
    (f.arity = 2 → callAsFunctionOrMethod f appInst event = f.body [appInst, event])
  ∧ (f.arity = 1 → ∀ v, f.body [event] = .ok v →
        callAsFunctionOrMethod f appInst event = .ok v)
  ∧ (f.arity = 1 → ∀ m, f.body [event] = .error (.valueError m) →
        callAsFunctionOrMethod f appInst event = .error (.valueError m))
  ∧ (f.arity = 1 → ∀ m, f.body [event] = .error (.keyError m) →
        callAsFunctionOrMethod f appInst event = .error (.keyError m))
  ∧ (f.arity = 1 → ∀ m, f.body [event] = .error (.attributeError m) →
        callAsFunctionOrMethod f appInst event = .error (.attributeError m))
  ∧ (f.arity = 1 → ∀ m, f.body [event] = .error (.typeError m) →
        callAsFunctionOrMethod f appInst event = .error (.typeError (arityMsg 1 2))) := by
  refine ⟨?_, ?_, ?_, ?_, ?_, ?_⟩
  · intro h2
    simp [callAsFunctionOrMethod, callPy, h2]
  · intro h1 v hb
    simp [callAsFunctionOrMethod, callPy, h1, hb]
  · intro h1 m hb
    simp [callAsFunctionOrMethod, callPy, h1, hb]
  · intro h1 m hb
    simp [callAsFunctionOrMethod, callPy, h1, hb]
  · intro h1 m hb
    simp [callAsFunctionOrMethod, callPy, h1, hb]
  · intro h1 m hb
    simp [callAsFunctionOrMethod, callPy, h1, hb, arityMsg]

/-- A two-argument method-style callback. -/
def methodFun : PyFun := ⟨2, fun args => .ok (String.intercalate "|" args)⟩

/-- A one-argument callback that succeeds. -/
def evOkFun : PyFun := ⟨1, fun args => .ok (String.intercalate "|" args)⟩

/-- A one-argument callback whose body raises a `ValueError`. -/
def bodyValueErr : PyFun := ⟨1, fun _ => .error (.valueError "boom")⟩

theorem claim_c2_witness :
    callAsFunctionOrMethod methodFun "app" "event" = .ok "app|event"
  ∧ callAsFunctionOrMethod evOkFun "app" "event" = .ok "event"
  ∧ callAsFunctionOrMethod bodyValueErr "app" "event" = .error (.valueError "boom")
  ∧ callAsFunctionOrMethod bodyTypeErr "app" "event" = .error (.typeError (arityMsg 1 2)) := by
  refine ⟨?_, ?_, ?_, ?_⟩
  · exact ((claim_c2 methodFun "app" "event").1 rfl).trans (by rfl)
  · exact (claim_c2 evOkFun "app" "event").2.1 rfl "event" rfl
  · exact (claim_c2 bodyValueErr "app" "event").2.2.1 rfl "boom" rfl
  · exact (claim_c2 bodyTypeErr "app" "event").2.2.2.2.2 rfl "unsupported operand type" rfl

/-! ## Claim C3 -/

/-- Claim C3 refuted: a separator inside a submenu declaration is not given a
colliding-free key and inserted — it is not inserted at all.
`MenuItem.__setitem__` rejects the separator selector with a `TypeError`
because it is not a `MenuItem` instance, so the whole build fails. -/
theorem claim_c3_counterexample :
    setMenu ids0 (some [.pair "P" [.sep]]) =
      .error (.typeError "values must be instances of MenuItem class; given <objc.selector>") := by
  rfl

/-- Claim C3 (amended): separators behave as claimed only at the top level:
given pairwise-distinct identity strings, distinct separators get distinct
keys, and a separator whose key is not already present is appended without
displacing or losing any entry.  Inside a submenu, the insertion raises
`TypeError` instead.  The identity key is an ordinary decimal string of an
object address, so distinctness from user titles is an assumption about
addresses, not enforced by the code. -/
theorem claim_c3 (ids : Nat → String) (inj : ∀ a b : Nat, ids a = ids b → a = b) :
    (∀ a b : Nat, a ≠ b → MKey.ks (ids a) ≠ MKey.ks (ids b))
  ∧ (∀ (l : List (MKey × TVal)) (n : Nat), hasKey l (.ks (ids n)) = false →
        MContainer.setItem (.top l) (.ks (ids n)) (.sepv n) =
          .ok (.top (l ++ [(.ks (ids n), .sepv n)])))
  ∧ (∀ (t : String) (cb : Option Nat) (ch : List (MKey × MNode)) (k : MKey) (o : Nat),
        hasKey ch k = false →
        MContainer.setItem (.sub (.mk t cb ch)) k (.sepv o) =
          .error (.typeError "values must be instances of MenuItem class; given <objc.selector>")) := by
  refine ⟨?_, ?_, ?_⟩
  · intro a b hab h
    refine hab (inj a b ?_)
    injection h
  · intro l n h
    exact setItem_top_fresh l _ _ h
  · intro t cb ch k o h
    simp [MContainer.setItem, h, typeName]

theorem claim_c3_witness :
    MKey.ks (sepIds 0) ≠ MKey.ks (sepIds 1)
  ∧ MContainer.setItem (.top [(MKey.ks "A", TVal.node (freshNode "A"))])
        (.ks (sepIds 1)) (.sepv 1) =
      .ok (.top ([(MKey.ks "A", TVal.node (freshNode "A"))] ++ [(.ks (sepIds 1), .sepv 1)]))
  ∧ MContainer.setItem (.sub (.mk "P" none [])) (.ks (sepIds 0)) (.sepv 0) =
      .error (.typeError "values must be instances of MenuItem class; given <objc.selector>") := by
  refine ⟨(claim_c3 sepIds sepIds_inj).1 0 1 (by decide), ?_, ?_⟩
  · exact (claim_c3 sepIds sepIds_inj).2.1 _ 1 (by decide)
  · exact (claim_c3 sepIds sepIds_inj).2.2 "P" none [] _ 0 rfl

/-! ## Claim C4 -/

/-- Claim C4 is contradicted by the code: `Timer.stop` invalidates the
underlying `NSTimer`, but the subsequent `delattr(self, 'start')` always
raises `AttributeError`, because `start` is a class-level method and is never
present in the instance dictionary, which after `__init__` holds exactly
`*callback`, `_nsdate` and `_nstimer`.  So `stop()` never returns normally
and `start` is never disabled. -/
theorem claim_c4 :
    timerStop timerInit =
      (⟨["*callback", "_nsdate", "_nstimer"], false⟩, some (.attributeError "start")) := by
  rfl

/-! ## Claim C5 -/

/-- Claim C5 refuted: for the declaration `[(A, [x]), (A, [y])]` the
first-occurrence depth-first order is `A, x, y`, but the duplicate top-level
title `A` replaces the previously built node (plain `OrderedDict`
assignment), so iterating the built tree yields `A, y` — the subtree of the
first occurrence is lost. -/
theorem claim_c5_counterexample :
    menuToks [.pair "A" [.str "x"], .pair "A" [.str "y"]] = [.t "A", .t "y"]
  ∧ ([Tok.t "A", Tok.t "y"] : List Tok) ≠ [Tok.t "A", Tok.t "x", Tok.t "y"] :=
  ⟨by decide, by decide⟩

/-- Claim C5 (amended): for every declaration whose levels are well formed
(supported arities, separators only at the top level) and whose keys are
pairwise distinct at every level — so that no insertion ever meets an
existing key — the build succeeds and depth-first iteration of the tree
yields exactly the declaration's depth-first token sequence, which for such
declarations coincides with first-occurrence order. -/
theorem claim_c5 (ids : Nat → String) (D : List Elem) (ks : List MKey) (n' : Nat)
    (hl : lvlList ids true D 0 = some (ks, n')) (hnd : ks.Nodup) :
    ∃ l, setMenu ids (some D) = .ok (some l) ∧ topToks l = listToks D := by
  obtain ⟨newE, hp, hkeys, htoks⟩ := parseTop ids D [] 0 ks n' hl hnd (fun k _ => rfl)
  refine ⟨newE, ?_, htoks⟩
  simp [setMenu, hp]

theorem claim_c5_witness :
    ∃ l, setMenu ids0 (some [.mapping [("Preferences", [.str "General", .str "Advanced"])],
        .sep, .str "Quit"]) = .ok (some l)
      ∧ topToks l = listToks [.mapping [("Preferences", [.str "General", .str "Advanced"])],
          .sep, .str "Quit"] :=
  claim_c5 ids0 _ [.ks "Preferences", .ks "<sep 0>", .ks "Quit"] 1 (by decide) (by decide)

/-! ## Claim C6 -/

/-- Claim C6: the `clicked` decorator only appends the deferred registration
at declaration time and cannot fail; binding happens when `run` drains the
registrations, and a path whose walk fails with a key miss raises
`ValueError` whose message contains the full registered path joined with
arrows, never a truncated prefix. -/
theorem claim_c6 (bs : List (List String × Nat)) (l : List (MKey × TVal))
    (path : List String) (cb : Nat) (a : String)
    (hfail : walkPath (.topC l) path = .error (.keyError a)) :
    clickedDecorator bs path cb = bs ++ [(path, cb)]
  ∧ registerClick (some l) path cb =
      .error (.valueError ("no path exists for " ++ String.intercalate " -> " path)) := by
  refine ⟨rfl, ?_⟩
  simp [registerClick, hfail]

theorem claim_c6_witness :
    registerClick (some [(MKey.ks "Preferences",
        TVal.node (.mk "Preferences" none [(.ks "General", freshNode "General")]))])
      ["Preferences", "Missing", "Deep"] 7 =
      .error (.valueError "no path exists for Preferences -> Missing -> Deep") := by
  have h := claim_c6 [] [(MKey.ks "Preferences",
      TVal.node (.mk "Preferences" none [(.ks "General", freshNode "General")]))]
    ["Preferences", "Missing", "Deep"] 7 "Missing" rfl
  exact h.2.trans (by rfl)

/-! ## Claim C7 -/

/-- Claim C7: a tuple element whose arity is neither 1 nor 2 aborts the build
with a `ValueError` naming the offending element and its length; an arity-1
tuple becomes a leaf node (keyed by the tuple, titled by its `str`); an
arity-2 pair becomes a node whose submenu is the recursive parse of the
second component. -/
theorem claim_c7 (ids : Nat → String) :
    (∀ (ss : List String) (rest : List Elem) (c : MContainer) (n : Nat),
        ss.length ≠ 1 → ss.length ≠ 2 →
        parseList ids (.tup ss :: rest) c n =
          .error (.valueError ("menu iterable element " ++ pyStrTup ss ++ " has length " ++
            toString ss.length ++
            "; must be a single menu item or a pair consisting of a menu item and its submenu")))
  ∧ (∀ s : String, setMenu ids (some [.tup [s]]) =
        .ok (some [(.kt [s], .node (.mk (pyStrTup [s]) none []))]))
  ∧ (∀ (t : String) (sub : List Elem) (sks : List MKey) (n1 : Nat),
        lvlList ids false sub 0 = some (sks, n1) → sks.Nodup →
        ∃ newCh, setMenu ids (some [.pair t sub]) =
            .ok (some [(.ks t, .node (.mk t none newCh))]) ∧
          childToks newCh = listToks sub) := by
  refine ⟨?_, ?_, ?_⟩
  · intro ss rest c n h1 h2
    rcases ss with _ | ⟨a, _ | ⟨b, _ | ⟨c3, ss'⟩⟩⟩
    · rw [parseList_cons]; simp [parseElem]
    · exact absurd rfl h1
    · exact absurd rfl h2
    · rw [parseList_cons]; simp [parseElem]
  · intro s
    simp [setMenu, parseList, parseElem, MContainer.setItem, odSet, hasKey, freshNode]
  · intro t sub sks n1 hs hsnd
    obtain ⟨newSub, hpSub, hkeysSub, htoksSub⟩ :=
      parseSub ids sub t none [] 0 sks n1 hs hsnd (fun k _ => rfl)
    refine ⟨newSub, ?_, htoksSub⟩
    have hck : hasKey ([] : List (MKey × TVal)) (.ks t) = false := rfl
    simp only [setMenu]
    rw [parseList_cons]
    simp only [parseElem, pairCore, setItem_top_fresh [] (.ks t) (.node (freshNode t)) hck,
      getItem_top_appended [] (.ks t) (.node (freshNode t)) hck]
    rw [show (freshNode t : MNode) = .mk t none [] from rfl, hpSub]
    simp [parseList, MContainer.putItem, putVal]

theorem claim_c7_witness :
    parseList ids0 [.tup ["a", "b", "c"]] (.top []) 0 =
      .error (.valueError "menu iterable element (a, b, c) has length 3; must be a single menu item or a pair consisting of a menu item and its submenu")
  ∧ setMenu ids0 (some [.tup ["x"]]) = .ok (some [(.kt ["x"], .node (.mk "(x,)" none []))])
  ∧ ∃ newCh, setMenu ids0 (some [.pair "P" [.str "G"]]) =
      .ok (some [(.ks "P", .node (.mk "P" none newCh))]) ∧ childToks newCh = listToks [.str "G"] := by
  refine ⟨?_, ?_, ?_⟩
  · exact ((claim_c7 ids0).1 ["a", "b", "c"] [] (.top []) 0 (by decide) (by decide)).trans (by rfl)
  · exact ((claim_c7 ids0).2.1 "x").trans (by rfl)
  · exact (claim_c7 ids0).2.2 "P" [.str "G"] [.ks "G"] 0 (by decide) (by decide)

/-! ## Claim C8 -/

/-- Claim C8: assigning `None` to the `title` or `icon` property of an `App`
is a silent no-op: the stored state is unchanged — whether the previous value
was `None` or not — and no propagation to the status bar happens. -/
theorem claim_c8 (a : AppState) :
    setTitleProp a none = (a, false) ∧ setIconProp a none = (a, false) :=
  ⟨rfl, rfl⟩

/-! ## Claim C9 -/

/-- Claim C9: `MenuItem.__setitem__` checks `key in self` before the
`isinstance` check, so assigning any value — `MenuItem` or not — under an
existing key returns without raising and leaves the node unchanged; the
`TypeError` branch is unreachable for duplicate keys. -/
theorem claim_c9 (t : String) (cb : Option Nat) (ch : List (MKey × MNode)) (k : MKey) (v : TVal)
    (h : hasKey ch k = true) :
    MContainer.setItem (.sub (.mk t cb ch)) k v = .ok (.sub (.mk t cb ch)) := by
  simp [MContainer.setItem, h]

theorem claim_c9_witness :
    MContainer.setItem (.sub (.mk "P" none [(.ks "A", freshNode "A")])) (.ks "A")
      (.other "<type int>") = .ok (.sub (.mk "P" none [(.ks "A", freshNode "A")])) :=
  claim_c9 "P" none _ (.ks "A") (.other "<type int>") (by decide)

/-! ## Claim C10 -/

/-- Claim C10: `initializeStatusBar` adds the declared entries in order (only
when a menu was configured) and appends the Quit item unconditionally
afterwards; the rendered menu always ends with the Quit entry, which carries
the `terminate:` action that no rendered user value ever has, so it was not
part of the declaration. -/
theorem claim_c10 :
    initStatusBar none = [quitEntry]
  ∧ (∀ l, initStatusBar (some l) = l.map (fun p => renderTVal p.2) ++ [quitEntry])
  ∧ (∀ menu, (initStatusBar menu).getLast? = some quitEntry)
  ∧ (∀ v : TVal, renderTVal v ≠ quitEntry) := by
  refine ⟨rfl, fun l => rfl, fun menu => ?_, fun v => ?_⟩
  · cases menu <;> simp [initStatusBar, List.getLast?_concat]
  · cases v with
    | node m =>
      cases m with
      | mk t cb ch => cases cb <;> simp [renderTVal, quitEntry]
    | sepv o => simp [renderTVal, quitEntry]
    | other ty => simp [renderTVal, quitEntry]

theorem claim_c10_witness :
    (initStatusBar (some [(MKey.ks "A", TVal.node (freshNode "A"))])).getLast? = some quitEntry
  ∧ renderTVal (TVal.node (freshNode "A")) ≠ quitEntry :=
  ⟨claim_c10.2.2.1 (some [(MKey.ks "A", TVal.node (freshNode "A"))]),
   claim_c10.2.2.2 (TVal.node (freshNode "A"))⟩

end Rumps
